import Mathlib

/-!
Verification of the resume-formatting pipeline.

The definitions below are a shallow embedding of the TypeScript sources:
the text-normalizer helpers of `src/services/geminiService.ts`, the three
renderers (`ResumePreview`, `docxService.generateResumeDoc`,
`pdfService.generateResumePDF`), the issue-reconciliation handlers
(`handleAcceptIssue`, `handleUndoChange`) and the key/model rotation layer
(`withModelFallback`).  Strings are modelled as Lean `String` over lists of
characters; JavaScript regular-expression replacement loops are modelled by
fuel-indexed scanners that are always called with fuel equal to the input
length (each step consumes at least one character, so the fuel never runs
out).  JavaScript `.length` counts UTF-16 code units while Lean counts code
points; all inputs occurring in the claims are ASCII, where the two agree.
-/

set_option maxRecDepth 8192

namespace ResumeSpec

/-- The JavaScript `\s` character class (whitespace as matched by the
regexes in `geminiService.ts` and by `String.prototype.trim`). -/
def isWs (c : Char) : Bool :=
  c == ' ' || c == '\t' || c == '\n' || c == '\r' || c == '\x0b' || c == '\x0c' ||
  c == ' ' || c == ' ' ||
  (decide (' ' ≤ c) && decide (c ≤ ' ')) ||
  c == ' ' || c == ' ' || c == ' ' || c == ' ' ||
  c == '　' || c == '﻿'

/-- The dash variants matched by `normalizeDates` (hyphen, en-dash, em-dash). -/
def isDash (c : Char) : Bool :=
  c == '-' || c == '–' || c == '—'

/-- The character class of `cleanText`
(`/^[\s•·\-\*◆■●\|]+/`): whitespace and the bullet
glyphs stripped from the start of a line. -/
def isBulletOrWs (c : Char) : Bool :=
  isWs c || c == '•' || c == '·' || c == '-' || c == '*' ||
  c == '◆' || c == '■' || c == '●' || c == '|'

/-- Drop trailing whitespace (the right half of `String.prototype.trim`). -/
def dropTrailingWs (l : List Char) : List Char :=
  (l.reverse.dropWhile isWs).reverse

/-- JavaScript `String.prototype.trim` on a character list. -/
def trimChars (l : List Char) : List Char :=
  dropTrailingWs (l.dropWhile isWs)

/-- Embedding of `cleanText` from `geminiService.ts`: strip a leading run of
whitespace and bullet glyphs, then trim. -/
def cleanText (text : String) : String :=
  if text.data = [] then ""
  else String.mk (trimChars (text.data.dropWhile isBulletOrWs))

/-- Boolean prefix test on character lists. -/
def isPrefixO : List Char → List Char → Bool
  | [], _ => true
  | _ :: _, [] => false
  | a :: as, b :: bs => a == b && isPrefixO as bs

/-- Boolean substring test (JavaScript `String.prototype.includes`). -/
def containsSub (pat : List Char) : List Char → Bool
  | [] => isPrefixO pat []
  | c :: rest => isPrefixO pat (c :: rest) || containsSub pat rest

/-- `occursIn pat s` holds when `pat` occurs as a contiguous substring of `s`. -/
def occursIn (pat s : String) : Bool :=
  containsSub pat.data s.data

/-- One match attempt of the regex `\s*[–—\-]\s*` at the head of the
list: skip whitespace, require a dash variant, skip whitespace; returns the
rest of the input after the match. -/
def afterDashSep (l : List Char) : Option (List Char) :=
  match l.dropWhile isWs with
  | [] => none
  | c :: rest => if isDash c then some (rest.dropWhile isWs) else none

/-- Global replacement pass of `/\s*[–—\-]\s*/g` by `" - "`,
scanning left to right as the JavaScript regex engine does.  `fuel` bounds
the recursion; each step consumes at least one character, so calling with
`fuel = l.length` gives the exact replacement. -/
def replaceDashFuel : Nat → List Char → List Char
  | 0, l => l
  | _ + 1, [] => []
  | n + 1, c :: rest =>
    match afterDashSep (c :: rest) with
    | some rest2 => ' ' :: '-' :: ' ' :: replaceDashFuel n rest2
    | none => c :: replaceDashFuel n rest

/-- One match attempt of the regex `\s+to\s+` (case-insensitive) at the head
of the list. -/
def afterToSep (l : List Char) : Option (List Char) :=
  match l with
  | [] => none
  | c :: _ =>
    if isWs c then
      match l.dropWhile isWs with
      | t :: o :: rest =>
        if (t == 't' || t == 'T') && (o == 'o' || o == 'O') then
          match rest with
          | [] => none
          | w :: _ => if isWs w then some (rest.dropWhile isWs) else none
        else none
      | _ => none
    else none

/-- Global replacement pass of `/\s+to\s+/gi` by `" - "`. -/
def replaceToFuel : Nat → List Char → List Char
  | 0, l => l
  | _ + 1, [] => []
  | n + 1, c :: rest =>
    match afterToSep (c :: rest) with
    | some rest2 => ' ' :: '-' :: ' ' :: replaceToFuel n rest2
    | none => c :: replaceToFuel n rest

/-- Embedding of `normalizeDates` from `geminiService.ts`: replace
whitespace-surrounded `to` (case-insensitive) by `" - "`, then replace every
dash variant together with surrounding whitespace by `" - "`, then trim. -/
def normalizeDates (dateStr : String) : String :=
  if dateStr.data = [] then ""
  else
    let s1 := replaceToFuel dateStr.data.length dateStr.data
    let s2 := replaceDashFuel s1.length s1
    String.mk (trimChars s2)

/-- ASCII upper-case letters, the `[A-Z]` class of the sentence-splitting
regex. -/
def isUpperAZ (c : Char) : Bool :=
  decide ('A' ≤ c) && decide (c ≤ 'Z')

/-- Scanner for `item.split(/\. (?=[A-Z])|\.$/g)`: a split point is a period
followed by a space and (lookahead, not consumed) an upper-case letter, or a
period at the very end of the string.  `cur` accumulates the current piece in
reverse. -/
def splitSentencesAux : List Char → List Char → List (List Char)
  | cur, [] => [cur.reverse]
  | cur, '.' :: [] => [cur.reverse, []]
  | cur, '.' :: ' ' :: d :: rest2 =>
    if isUpperAZ d then cur.reverse :: splitSentencesAux [] (d :: rest2)
    else splitSentencesAux ('.' :: cur) (' ' :: d :: rest2)
  | cur, c :: rest => splitSentencesAux (c :: cur) rest

/-- `item.split(/\. (?=[A-Z])|\.$/g)` on a character list. -/
def splitSentences (l : List Char) : List (List Char) :=
  splitSentencesAux [] l

/-- Re-punctuate a trimmed fragment so that it ends with a period
(`trimmed.endsWith('.') ? trimmed : trimmed + '.'`). -/
def repunctuate (t : List Char) : List Char :=
  if t.getLast? = some '.' then t else t ++ ['.']

/-- The per-item body of `processDescription` (identical in all three
renderers): a line longer than 100 characters containing a period is split at
sentence boundaries, empty fragments are dropped, and each fragment is
trimmed and re-punctuated to end with a period; any other line passes
through unchanged. -/
def processItem (item : String) : List String :=
  if decide (100 < item.data.length) && item.data.contains '.' then
    (((splitSentences item.data).filter
        (fun s => decide (0 < (trimChars s).length))).map
      (fun s => String.mk (repunctuate (trimChars s))))
  else [item]

/-- Embedding of `processDescription` as defined in `docxService.ts`. -/
def processDescriptionDocx (items : List String) : List String :=
  items.flatMap processItem

/-- Embedding of `processDescription` as defined in `pdfService.ts`. -/
def processDescriptionPdf (items : List String) : List String :=
  items.flatMap processItem

/-- Embedding of `processDescription` as defined in the `ResumePreview`
component. -/
def processDescriptionPreview (items : List String) : List String :=
  items.flatMap processItem

/-- JavaScript word characters, the `\w` class used by the `\b` boundaries
of `formatModernDate`. -/
def isWordChar (c : Char) : Bool :=
  (decide ('a' ≤ c) && decide (c ≤ 'z')) ||
  (decide ('A' ≤ c) && decide (c ≤ 'Z')) ||
  (decide ('0' ≤ c) && decide (c ≤ '9')) || c == '_'

/-- Word-character test on an optional character; `none` (string edge)
counts as a non-word position. -/
def optWord : Option Char → Bool
  | none => false
  | some c => isWordChar c

/-- Global replacement of the word-bounded pattern
`new RegExp("\\b" + short + "\\b", "g")` by `full`, scanning left to right.
`prev` is the character just before the current position (for the left
word boundary).  Fuel-indexed; each step consumes at least one character
for a non-empty pattern. -/
def replaceWordFuel (pat full : List Char) : Nat → Option Char → List Char → List Char
  | 0, _, l => l
  | _ + 1, _, [] => []
  | n + 1, prev, c :: rest =>
    if isPrefixO pat (c :: rest) && (optWord prev != isWordChar c) &&
        (isWordChar (pat.getLastD c) != optWord ((c :: rest).drop pat.length).head?) then
      full ++ replaceWordFuel pat full n (some (pat.getLastD c)) ((c :: rest).drop pat.length)
    else
      c :: replaceWordFuel pat full n (some c) rest

/-- Replace every word-bounded occurrence of `pat` by `full`. -/
def replaceWordAll (pat full s : List Char) : List Char :=
  replaceWordFuel pat full s.length none s

/-- The month map of `formatModernDate`, in JavaScript `Object.keys`
insertion order (the `Sept` alias last). -/
def monthPairs : List (String × String) :=
  [("Jan", "January"), ("Feb", "February"), ("Mar", "March"), ("Apr", "April"),
   ("May", "May"), ("Jun", "June"), ("Jul", "July"), ("Aug", "August"),
   ("Sep", "September"), ("Oct", "October"), ("Nov", "November"), ("Dec", "December"),
   ("Sept", "September")]

/-- Embedding of `formatModernDate` (identical in `ResumePreview`,
`docxService.ts` and `pdfService.ts`): expand each word-bounded 3-letter
month abbreviation (plus `Sept`) to the full month name. -/
def formatModernDate (dateStr : String) : String :=
  if dateStr.data = [] then ""
  else String.mk (monthPairs.foldl (fun acc p => replaceWordAll p.1.data p.2.data acc) dateStr.data)

/-- The date string displayed for an education entry by the preview
renderer: `edu.dates` verbatim (the preview education block does not call
`formatModernDate`, for either format). -/
def previewEducationDates (dates : String) : String :=
  dates

/-- The date string displayed for an education entry by the DOCX export:
expanded via `formatModernDate` under Modern Executive, verbatim under
Classic. -/
def docxEducationDates (isModern : Bool) (dates : String) : String :=
  if isModern then formatModernDate dates else dates

/-- The date string displayed for an education entry by the PDF export:
`isModern ? formatModernDate(edu.dates) : edu.dates`. -/
def pdfEducationDates (isModern : Bool) (dates : String) : String :=
  if isModern then formatModernDate dates else dates

/-- ASCII upper-casing of one character (`String.prototype.toUpperCase`
restricted to ASCII, which covers every title computed on below). -/
def asciiUpper (c : Char) : Char :=
  if decide ('a' ≤ c) && decide (c ≤ 'z') then Char.ofNat (c.toNat - 32) else c

/-- ASCII upper-casing of a string (`section.title.toUpperCase()`). -/
def upperJs (s : String) : String :=
  String.mk (s.data.map asciiUpper)

/-- Grid-candidate test shared by the three renderers: the upper-cased
section title contains SKILLS, COMPETENCIES or LANGUAGES. -/
def isGridCandidateTitle (title : String) : Bool :=
  occursIn "SKILLS" (upperJs title) || occursIn "COMPETENCIES" (upperJs title) ||
  occursIn "LANGUAGES" (upperJs title)

/-- `section.items.some(item => item.length > 60)`. -/
def hasLongItems (items : List String) : Bool :=
  items.any (fun item => decide (60 < item.data.length))

/-- Number of CSS columns used by the preview for a custom section
(`columnCount: useColumns ? 2 : 1` with
`useColumns = isGridCandidate && !hasLongItems && items.length > 2`). -/
def previewCustomColumns (title : String) (items : List String) : Nat :=
  if isGridCandidateTitle title && !hasLongItems items && decide (2 < items.length) then 2
  else 1

/-- Layout chosen by the DOCX export for a custom section: a two-column
table of row pairs, or a flat single-column list. -/
inductive DocxSectionLayout where
  | grid (rows : List (String × Option String))
  | flat (items : List String)
deriving DecidableEq, Repr

/-- Row pairing of `createGrid`: items are taken two at a time
(`for (let i = 0; i < items.length; i += 2)`), an odd tail leaving an empty
right cell. -/
def pairRows : List String → List (String × Option String)
  | [] => []
  | [a] => [(a, none)]
  | a :: b :: rest => (a, some b) :: pairRows rest

/-- Custom-section layout of the DOCX export. -/
def docxCustomLayout (title : String) (items : List String) : DocxSectionLayout :=
  if isGridCandidateTitle title && !hasLongItems items then .grid (pairRows items)
  else .flat items

/-- Layout chosen by the PDF export for a custom section. -/
inductive PdfSectionLayout where
  | twoCol (left right : List String)
  | oneCol (items : List String)
deriving DecidableEq, Repr

/-- Items at even indices (`idx % 2 === 0`, the PDF export's left column). -/
def evenIdx : List String → List String
  | [] => []
  | [a] => [a]
  | a :: _ :: rest => a :: evenIdx rest

/-- Items at odd indices (the PDF export's right column). -/
def oddIdx : List String → List String
  | [] => []
  | [_] => []
  | _ :: b :: rest => b :: oddIdx rest

/-- Custom-section layout of the PDF export. -/
def pdfCustomLayout (title : String) (items : List String) : PdfSectionLayout :=
  if isGridCandidateTitle title && !hasLongItems items then
    .twoCol (evenIdx items) (oddIdx items)
  else .oneCol items

/-- The text before the first colon (`item.split(":")[0]`). -/
def keyBeforeColon (s : String) : String :=
  String.mk (s.data.takeWhile (fun c => c != ':'))

/-- The text after the first colon (`item.split(":").slice(1).join(":")`). -/
def valueAfterColon (s : String) : String :=
  String.mk ((s.data.dropWhile (fun c => c != ':')).drop 1)

/-- Index of the first colon (JavaScript `item.indexOf(":")`; only used
under an `includes(":")` guard). -/
def firstColonIdx (s : String) : Nat :=
  s.data.findIdx (fun c => c == ':')

/-- Text runs emitted by the preview for one custom-section item, as
(text, bold) pairs: a `Key: Value` line becomes a bold `Key:` span followed
by the unbolded value. -/
def previewCustomItemRuns (item : String) : List (String × Bool) :=
  if item.data.contains ':' then
    [(keyBeforeColon item ++ ":", true), (valueAfterColon item, false)]
  else [(item, false)]

/-- Text runs emitted by the PDF export for one custom-section item in the
single-column (non-grid) branch. -/
def pdfCustomItemRuns (item : String) : List (String × Bool) :=
  if item.data.contains ':' then
    [(keyBeforeColon item ++ ":", true), (valueAfterColon item, false)]
  else [(item, false)]

/-- Text runs emitted by the DOCX export for one custom-section item in the
single-column branch: a line whose colon appears within the first 20
characters becomes one plain (unbolded) run; anything else becomes a
bullet paragraph whose runs are also unbolded. -/
def docxCustomItemRuns (item : String) : List (String × Bool) :=
  if item.data.contains ':' && decide (firstColonIdx item < 20) then
    [(item, false)]
  else [("•\t", false), (item, false)]

/-- JSON-like values: the shape of the `ResumeData` record as manipulated by
`JSON.parse(JSON.stringify(data))`, `_.get` and `_.set`. -/
inductive Json where
  | null
  | str (s : String)
  | arr (elems : List Json)
  | obj (fields : List (String × Json))

/-- Lookup of an object field by key (first match). -/
def lookupField : List (String × Json) → String → Option Json
  | [], _ => none
  | (k0, v0) :: fs, k => if k0 = k then some v0 else lookupField fs k

/-- Replace the value of a field (first match), appending when missing, as
`_.set` does on objects. -/
def setField : List (String × Json) → String → Json → List (String × Json)
  | [], k, v => [(k, v)]
  | (k0, v0) :: fs, k, v =>
    if k0 = k then (k, v) :: fs else (k0, v0) :: setField fs k v

/-- Write an array element at an index, padding with `null` beyond the end
as `_.set` does on arrays. -/
def setIdx : List Json → Nat → Json → List Json
  | [], 0, v => [v]
  | [], n + 1, v => Json.null :: setIdx [] n v
  | _ :: l, 0, v => v :: l
  | a :: l, n + 1, v => a :: setIdx l n v

/-- Parse a path segment as an array index (decimal digits only). -/
def parseIndex (s : String) : Option Nat :=
  if s.data ≠ [] && s.data.all (fun c => decide ('0' ≤ c) && decide (c ≤ '9')) then
    some (s.data.foldl (fun n c => n * 10 + (c.toNat - 48)) 0)
  else none

/-- Split a dot-notation path into segments (lodash `toPath` on the paths
produced by this app, which are pure dot form such as
`experience.0.description.2`). -/
def splitDotAux (cur : List Char) : List Char → List (List Char)
  | [] => [cur.reverse]
  | c :: rest =>
    if c == '.' then cur.reverse :: splitDotAux [] rest
    else splitDotAux (c :: cur) rest

/-- Parse a dot-notation path string into its segments. -/
def parsePath (s : String) : List String :=
  (splitDotAux [] s.data).map String.mk

/-- `_.get(record, path)`: resolve a segment list against a `Json` value;
`none` models JavaScript `undefined`. -/
def getPath : Json → List String → Option Json
  | j, [] => some j
  | Json.obj fs, k :: rest =>
    match lookupField fs k with
    | some v => getPath v rest
    | none => none
  | Json.arr l, k :: rest =>
    match parseIndex k with
    | some i =>
      match l.get? i with
      | some v => getPath v rest
      | none => none
    | none => none
  | _, _ :: _ => none

/-- The empty container `_.set` creates for a missing intermediate step: an
array when the next segment is an index, otherwise an object. -/
def emptyForSeg (rest : List String) : Json :=
  match rest with
  | [] => Json.null
  | k :: _ =>
    match parseIndex k with
    | some _ => Json.arr []
    | none => Json.obj []

/-- `_.set(record, path, v)`: write `v` at the path, creating intermediate
containers when missing; primitives in the way are left unchanged (the
handlers only ever write to a path that `_.get` resolved). -/
def setPath : Json → List String → Json → Json
  | _, [], v => v
  | Json.obj fs, k :: rest, v =>
    Json.obj (setField fs k (setPath ((lookupField fs k).getD (emptyForSeg rest)) rest v))
  | Json.arr l, k :: rest, v =>
    (match parseIndex k with
     | some i => Json.arr (setIdx l i (setPath ((l.get? i).getD (emptyForSeg rest)) rest v))
     | none => Json.arr l)
  | j, _ :: _, _ => j

/-- First occurrence replacement, the JavaScript
`currentValue.replace(searchString, replacement)` with plain-string
arguments (`$`-escapes in the replacement are not used by this app). -/
def replaceFirstChars (pat rep : List Char) : List Char → List Char
  | [] => if isPrefixO pat [] then rep else []
  | c :: rest =>
    if isPrefixO pat (c :: rest) then rep ++ (c :: rest).drop pat.length
    else c :: replaceFirstChars pat rep rest

/-- First occurrence replacement on strings. -/
def replaceFirst (s pat rep : String) : String :=
  String.mk (replaceFirstChars pat.data rep.data s.data)

/-- A located grammar suggestion (`GrammarIssue` of `types.ts`). -/
structure GrammarIssue where
  id : String
  path : String
  original : String
  errorText : String
  suggestions : List String
  reason : String
deriving DecidableEq, Repr

/-- One row of the modification log (`ChangeLogItem` of `types.ts`). -/
structure ChangeLogItem where
  id : String
  timestamp : Nat
  path : String
  original : String
  new : String
  reason : String
deriving DecidableEq, Repr

/-- The review-session state held by `ResumePreview`: the current record,
the still-open issues and the change log (newest first). -/
structure SessionState where
  data : Json
  issues : List GrammarIssue
  changeLog : List ChangeLogItem

/-- Embedding of `handleAcceptIssue`: deep-copy the record (value copy),
read the value at the issue's path, and when it is a string, the issue has a
non-empty `errorText` and at least one suggestion, replace the first
occurrence of `errorText` by the first suggestion, write the result back,
and prepend a change-log entry; in every case the issue is removed from the
open list.  `now` stands for `Date.now()`. -/
def handleAcceptIssue (st : SessionState) (issue : GrammarIssue) (now : Nat) : SessionState :=
  match getPath st.data (parsePath issue.path), issue.suggestions with
  | some (Json.str currentValue), selectedSuggestion :: _ =>
    if issue.errorText = "" then
      { st with issues := st.issues.filter (fun i => i.id != issue.id) }
    else
      let newValue := replaceFirst currentValue issue.errorText selectedSuggestion
      let newLogItem : ChangeLogItem :=
        { id := toString now, timestamp := now, path := issue.path,
          original := issue.errorText, new := selectedSuggestion, reason := issue.reason }
      { data := setPath st.data (parsePath issue.path) (Json.str newValue),
        issues := st.issues.filter (fun i => i.id != issue.id),
        changeLog := newLogItem :: st.changeLog }
  | _, _ =>
    { st with issues := st.issues.filter (fun i => i.id != issue.id) }

/-- Embedding of `handleUndoChange`: refuse entries tagged `Extraction`;
otherwise, when the value at the entry's path is a string, replace the first
occurrence of the entry's `new` text by its `original` text, write it back,
and remove the entry from the log; otherwise do nothing. -/
def handleUndoChange (st : SessionState) (log : ChangeLogItem) : SessionState :=
  if log.path = "Extraction" then st
  else
    match getPath st.data (parsePath log.path) with
    | some (Json.str currentValue) =>
      { st with
        data := setPath st.data (parsePath log.path)
          (Json.str (replaceFirst currentValue log.new log.original)),
        changeLog := st.changeLog.filter (fun item => item.id != log.id) }
    | _ => st

/-- Outcome of one model invocation, as classified by `withModelFallback`:
success, a rate-limit-class error (HTTP 429 / RESOURCE_EXHAUSTED / quota
signals), or any other (fatal) error. -/
inductive CallResult (T : Type) where
  | success (t : T)
  | rateLimit
  | fatal
deriving DecidableEq, Repr

/-- Overall outcome of `withModelFallback`: a value, the configuration
error for an empty key pool, an immediately rethrown fatal error, or the
aggregated exhaustion error. -/
inductive FallbackOutcome (T : Type) where
  | ok (t : T)
  | noKeys
  | fatalError
  | exhausted
deriving DecidableEq, Repr

/-- The fixed priority list of model identifiers (`FALLBACK_MODELS`). -/
def FALLBACK_MODELS : List String :=
  ["gemini-3-flash-preview", "gemini-3.1-pro-preview", "gemini-flash-latest"]

/-- The fixed total attempt budget (`maxAttempts = 3`). -/
def maxAttempts : Nat := 3

/-- The inner `for (let i = 0; i < pool.length; i++)` loop of
`withModelFallback` for one model: `iters` counts remaining iterations,
`k` is the global `currentKeyIndex`, `a` the running `totalAttempts`.
Returns an early result (success or fatal) or `none` together with the
updated key index and attempt count.  The loop body first breaks when the
budget is reached, then attempts `op` with `pool[k % pool.length]`,
rotating the key and counting the attempt on a rate-limit error. -/
def fallbackInner {T : Type} (op : String → String → CallResult T) (modelId : String)
    (pool : List String) : Nat → Nat → Nat → Option (FallbackOutcome T) × Nat × Nat
  | 0, k, a => (none, k, a)
  | iters + 1, k, a =>
    if a ≥ maxAttempts then (none, k, a)
    else
      match op modelId ((pool.get? (k % pool.length)).getD "") with
      | CallResult.success t => (some (FallbackOutcome.ok t), k, a)
      | CallResult.fatal => (some FallbackOutcome.fatalError, k, a)
      | CallResult.rateLimit => fallbackInner op modelId pool iters (k + 1) (a + 1)

/-- The outer `for (const modelId of FALLBACK_MODELS)` loop: after each
model's inner loop, break when the budget is reached; falling off the end
raises the aggregated exhaustion error. -/
def fallbackOuter {T : Type} (op : String → String → CallResult T) (pool : List String) :
    List String → Nat → Nat → FallbackOutcome T × Nat
  | [], _, a => (FallbackOutcome.exhausted, a)
  | modelId :: models, k, a =>
    match fallbackInner op modelId pool pool.length k a with
    | (some r, _, a2) => (r, a2)
    | (none, k2, a2) =>
      if a2 ≥ maxAttempts then (FallbackOutcome.exhausted, a2)
      else fallbackOuter op pool models k2 a2

/-- Embedding of `withModelFallback`: the outcome together with the total
number of invocation attempts made.  `startKey` is the value of the global
`currentKeyIndex` at call time. -/
def withModelFallback {T : Type} (op : String → String → CallResult T)
    (pool : List String) (startKey : Nat) : FallbackOutcome T × Nat :=
  if pool.length = 0 then (FallbackOutcome.noKeys, 0)
  else fallbackOuter op pool FALLBACK_MODELS startKey 0

theorem lookupField_setField_self (k : String) (v : Json) :
    ∀ fs : List (String × Json), lookupField fs k = some v → setField fs k v = fs := by
  intro fs
  induction fs with
  | nil => intro h; simp [lookupField] at h
  | cons f fs ih =>
    intro h
    obtain ⟨k0, v0⟩ := f
    simp only [lookupField] at h
    by_cases hk : k0 = k
    · rw [if_pos hk] at h
      injection h with h
      subst hk
      subst h
      simp [setField]
    · rw [if_neg hk] at h
      simp [setField, hk, ih h]

theorem lookupField_setField (k : String) (v : Json) :
    ∀ fs : List (String × Json), lookupField (setField fs k v) k = some v := by
  intro fs
  induction fs with
  | nil => simp [setField, lookupField]
  | cons f fs ih =>
    obtain ⟨k0, v0⟩ := f
    by_cases hk : k0 = k
    · simp [setField, hk, lookupField]
    · simp [setField, hk, lookupField, ih]

theorem getElem?_setIdx (v : Json) :
    ∀ (i : Nat) (l : List Json), (setIdx l i v)[i]? = some v := by
  intro i
  induction i with
  | zero => intro l; cases l <;> simp [setIdx]
  | succ n ih => intro l; cases l <;> simp [setIdx, ih]

theorem get?_setIdx (v : Json) (i : Nat) (l : List Json) :
    (setIdx l i v).get? i = some v := by
  rw [List.get?_eq_getElem?]
  exact getElem?_setIdx v i l

theorem get?_setIdx_self (x : Json) :
    ∀ (l : List Json) (i : Nat), l.get? i = some x → setIdx l i x = l := by
  intro l
  induction l with
  | nil => intro i h; simp at h
  | cons a l ih =>
    intro i h
    cases i with
    | zero =>
      simp only [List.get?] at h
      injection h with h
      subst h
      simp [setIdx]
    | succ n =>
      simp only [List.get?] at h
      simp [setIdx, ih n h]

theorem getPath_obj_cons (fs : List (String × Json)) (k : String) (rest : List String)
    (x : Json) (h : getPath (Json.obj fs) (k :: rest) = some x) :
    ∃ w, lookupField fs k = some w ∧ getPath w rest = some x := by
  simp only [getPath] at h
  split at h
  · exact ⟨_, by assumption, h⟩
  · simp at h

theorem getPath_arr_cons (l : List Json) (k : String) (rest : List String)
    (x : Json) (h : getPath (Json.arr l) (k :: rest) = some x) :
    ∃ i w, parseIndex k = some i ∧ l.get? i = some w ∧ getPath w rest = some x := by
  simp only [getPath] at h
  split at h
  · split at h
    · exact ⟨_, _, by assumption, by assumption, h⟩
    · simp at h
  · simp at h

theorem setPath_obj_cons (fs : List (String × Json)) (k : String) (rest : List String)
    (v w : Json) (hl : lookupField fs k = some w) :
    setPath (Json.obj fs) (k :: rest) v = Json.obj (setField fs k (setPath w rest v)) := by
  simp only [setPath, hl, Option.getD_some]

theorem setPath_arr_cons (l : List Json) (k : String) (rest : List String)
    (v w : Json) (i : Nat) (hpi : parseIndex k = some i) (hg : l.get? i = some w) :
    setPath (Json.arr l) (k :: rest) v = Json.arr (setIdx l i (setPath w rest v)) := by
  simp only [setPath]
  split
  next i2 heq =>
    rw [hpi] at heq
    injection heq with heq
    subst heq
    rw [List.get?_eq_getElem?] at hg
    simp [hg]
  next heq =>
    rw [hpi] at heq
    exact absurd heq (by simp)

/-- Writing back the very value `_.get` just read leaves the record
unchanged. -/
theorem setPath_getPath_self :
    ∀ (p : List String) (j x : Json), getPath j p = some x → setPath j p x = j := by
  intro p
  induction p with
  | nil =>
    intro j x h
    simp only [getPath, Option.some.injEq] at h
    simp [setPath, h]
  | cons k rest ih =>
    intro j x h
    cases j with
    | null => simp [getPath] at h
    | str s => simp [getPath] at h
    | arr l =>
      obtain ⟨i, w, hpi, hg, hw⟩ := getPath_arr_cons l k rest x h
      rw [setPath_arr_cons l k rest x w i hpi hg, ih w x hw, get?_setIdx_self w l i hg]
    | obj fs =>
      obtain ⟨w, hl, hw⟩ := getPath_obj_cons fs k rest x h
      rw [setPath_obj_cons fs k rest x w hl, ih w x hw, lookupField_setField_self k w fs hl]

/-- Reading back a freshly written path yields the written value (the path
resolved before the write). -/
theorem getPath_setPath (v : Json) :
    ∀ (p : List String) (j y : Json), getPath j p = some y →
      getPath (setPath j p v) p = some v := by
  intro p
  induction p with
  | nil => intro j y h; simp [getPath, setPath]
  | cons k rest ih =>
    intro j y h
    cases j with
    | null => simp [getPath] at h
    | str s => simp [getPath] at h
    | arr l =>
      obtain ⟨i, w, hpi, hg, hw⟩ := getPath_arr_cons l k rest y h
      rw [setPath_arr_cons l k rest v w i hpi hg]
      simp only [getPath, hpi, get?_setIdx]
      exact ih w y hw
    | obj fs =>
      obtain ⟨w, hl, hw⟩ := getPath_obj_cons fs k rest y h
      rw [setPath_obj_cons fs k rest v w hl]
      simp only [getPath, lookupField_setField]
      exact ih w y hw

theorem containsSub_nil_left : ∀ l : List Char, containsSub [] l = true := by
  intro l
  cases l <;> simp [containsSub, isPrefixO]

theorem replaceFirstChars_of_not_sub (pat rep : List Char) :
    ∀ l : List Char, containsSub pat l = false → replaceFirstChars pat rep l = l := by
  intro l
  induction l with
  | nil =>
    intro h
    simp only [containsSub] at h
    simp [replaceFirstChars, h]
  | cons c rest ih =>
    intro h
    simp only [containsSub, Bool.or_eq_false_iff] at h
    simp [replaceFirstChars, h.1, ih h.2]

/-- A plain-string `replace` whose search string does not occur is the
identity. -/
theorem replaceFirst_of_not_occurs (s pat rep : String) (h : occursIn pat s = false) :
    replaceFirst s pat rep = s := by
  unfold replaceFirst
  rw [replaceFirstChars_of_not_sub pat.data rep.data s.data h]

/-- The empty string occurs in every string, so a stale `errorText` is
necessarily non-empty. -/
theorem occursIn_empty (s : String) : occursIn "" s = true := by
  unfold occursIn
  exact containsSub_nil_left s.data

/-- Claim C3: for every GrammarIssue whose `errorText` does not occur in
the current field value at its path (including the case where the path does
not resolve to a string at all), `handleAcceptIssue` leaves the
`ResumeRecord` unchanged, and `handleUndoChange` on an entry whose `new`
text does not occur in the current field value likewise leaves the record
unchanged; both handlers are total functions, so neither throws. -/
theorem claim_C3_stale_noop (st : SessionState) (issue : GrammarIssue)
    (log : ChangeLogItem) (now : Nat)
    (hIssue : ∀ cv : String, getPath st.data (parsePath issue.path) = some (Json.str cv) →
      occursIn issue.errorText cv = false)
    (hLog : ∀ cv : String, getPath st.data (parsePath log.path) = some (Json.str cv) →
      occursIn log.new cv = false) :
    (handleAcceptIssue st issue now).data = st.data ∧
    (handleUndoChange st log).data = st.data := by
  constructor
  · unfold handleAcceptIssue
    cases hget : getPath st.data (parsePath issue.path) with
    | none => rfl
    | some jv =>
      cases jv with
      | null => rfl
      | arr l => rfl
      | obj fs => rfl
      | str cv =>
        cases hsug : issue.suggestions with
        | nil => rfl
        | cons sel rest =>
          by_cases herr : issue.errorText = ""
          · simp [herr]
          · simp only [if_neg herr]
            simp only [replaceFirst_of_not_occurs cv issue.errorText sel (hIssue cv hget)]
            simp [setPath_getPath_self (parsePath issue.path) st.data (Json.str cv) hget]
  · unfold handleUndoChange
    by_cases hsent : log.path = "Extraction"
    · simp [hsent]
    · simp only [if_neg hsent]
      cases hget : getPath st.data (parsePath log.path) with
      | none => rfl
      | some jv =>
        cases jv with
        | null => rfl
        | arr l => rfl
        | obj fs => rfl
        | str cv =>
          simp only [replaceFirst_of_not_occurs cv log.new log.original (hLog cv hget)]
          simp [setPath_getPath_self (parsePath log.path) st.data (Json.str cv) hget]

/-- Witness for C3 at a concrete stale issue and stale log entry. -/
theorem claim_C3_stale_noop_witness :
    (handleAcceptIssue
        { data := Json.obj [("summary", Json.arr [Json.str "Led the team"])],
          issues := [], changeLog := [] }
        { id := "g1", path := "summary.0", original := "Led the team",
          errorText := "sucess", suggestions := ["success", "a success", "successfully"],
          reason := "spelling" } 7).data =
      Json.obj [("summary", Json.arr [Json.str "Led the team"])] ∧
    (handleUndoChange
        { data := Json.obj [("summary", Json.arr [Json.str "Led the team"])],
          issues := [], changeLog := [] }
        { id := "c1", timestamp := 7, path := "summary.0",
          original := "sucess", new := "success", reason := "spelling" }).data =
      Json.obj [("summary", Json.arr [Json.str "Led the team"])] :=
  claim_C3_stale_noop
    { data := Json.obj [("summary", Json.arr [Json.str "Led the team"])],
      issues := [], changeLog := [] }
    { id := "g1", path := "summary.0", original := "Led the team",
      errorText := "sucess", suggestions := ["success", "a success", "successfully"],
      reason := "spelling" }
    { id := "c1", timestamp := 7, path := "summary.0",
      original := "sucess", new := "success", reason := "spelling" }
    7
    (by intro cv h; injection h with h; injection h with h; subst h; decide)
    (by intro cv h; injection h with h; injection h with h; subst h; decide)

/-- Claim C9: accepting an issue whose path resolves to a string and whose
suggestion list is non-empty, but whose `errorText` does not occur in that
string, still prepends a change-log entry recording `errorText` →
first suggestion and still removes the issue, while the record itself is
unchanged. -/
theorem claim_C9_stale_accept_still_logged (st : SessionState) (issue : GrammarIssue)
    (now : Nat) (cv sel : String) (rest : List String)
    (hget : getPath st.data (parsePath issue.path) = some (Json.str cv))
    (hsug : issue.suggestions = sel :: rest)
    (hnot : occursIn issue.errorText cv = false) :
    handleAcceptIssue st issue now =
      { data := st.data,
        issues := st.issues.filter (fun i => i.id != issue.id),
        changeLog :=
          { id := toString now, timestamp := now, path := issue.path,
            original := issue.errorText, new := sel, reason := issue.reason } ::
            st.changeLog } := by
  have herr : ¬(issue.errorText = "") := by
    intro he
    rw [he, occursIn_empty] at hnot
    exact Bool.true_eq_false.mp hnot
  simp only [handleAcceptIssue, hget, hsug]
  rw [if_neg herr]
  rw [replaceFirst_of_not_occurs cv issue.errorText sel hnot]
  rw [setPath_getPath_self (parsePath issue.path) st.data (Json.str cv) hget]

/-- Witness for C9 at a concrete stale-but-logged accept. -/
theorem claim_C9_stale_accept_still_logged_witness :
    handleAcceptIssue
        { data := Json.obj [("summary", Json.arr [Json.str "Led the team"])],
          issues := [
            { id := "g1", path := "summary.0", original := "Led the team",
              errorText := "sucess", suggestions := ["success", "a success", "successfully"],
              reason := "spelling" }],
          changeLog := [] }
        { id := "g1", path := "summary.0", original := "Led the team",
          errorText := "sucess", suggestions := ["success", "a success", "successfully"],
          reason := "spelling" } 7 =
      { data := Json.obj [("summary", Json.arr [Json.str "Led the team"])],
        issues := [],
        changeLog := [
          { id := "7", timestamp := 7, path := "summary.0",
            original := "sucess", new := "success", reason := "spelling" }] } := by
  have h := claim_C9_stale_accept_still_logged
    { data := Json.obj [("summary", Json.arr [Json.str "Led the team"])],
      issues := [
        { id := "g1", path := "summary.0", original := "Led the team",
          errorText := "sucess", suggestions := ["success", "a success", "successfully"],
          reason := "spelling" }],
      changeLog := [] }
    { id := "g1", path := "summary.0", original := "Led the team",
      errorText := "sucess", suggestions := ["success", "a success", "successfully"],
      reason := "spelling" }
    7 "Led the team" "success" ["a success", "successfully"] rfl rfl (by decide)
  rw [h]
  rfl

/-- Claim C1: the Accept→Undo round trip on the concrete issue of the spec.
Accept rewrites the addressed field to "Led the team to success" and
prepends the change-log entry (original "sucess", new "success"); Undo on
that entry restores "Led the team to sucess" and removes the entry.
`hfresh` states that the fresh entry id (`Date.now().toString()`) does not
collide with an existing entry, and the issue path is a record path, not the
`Extraction` sentinel. -/
theorem claim_C1_accept_undo_round_trip (st : SessionState) (issue : GrammarIssue) (now : Nat)
    (_horig : issue.original = "Led the team to sucess")
    (herr : issue.errorText = "sucess")
    (hsug : issue.suggestions = ["success", "a success", "successfully"])
    (hpath : getPath st.data (parsePath issue.path) = some (Json.str "Led the team to sucess"))
    (hsent : issue.path ≠ "Extraction")
    (hfresh : ∀ e ∈ st.changeLog, e.id ≠ toString now) :
    getPath (handleAcceptIssue st issue now).data (parsePath issue.path) =
      some (Json.str "Led the team to success") ∧
    (handleAcceptIssue st issue now).changeLog =
      { id := toString now, timestamp := now, path := issue.path,
        original := "sucess", new := "success", reason := issue.reason } :: st.changeLog ∧
    getPath (handleUndoChange (handleAcceptIssue st issue now)
        { id := toString now, timestamp := now, path := issue.path,
          original := "sucess", new := "success", reason := issue.reason }).data
      (parsePath issue.path) = some (Json.str "Led the team to sucess") ∧
    (handleUndoChange (handleAcceptIssue st issue now)
        { id := toString now, timestamp := now, path := issue.path,
          original := "sucess", new := "success", reason := issue.reason }).changeLog =
      st.changeLog := by
  have hstep : handleAcceptIssue st issue now =
      { data := setPath st.data (parsePath issue.path) (Json.str "Led the team to success"),
        issues := st.issues.filter (fun i => i.id != issue.id),
        changeLog :=
          { id := toString now, timestamp := now, path := issue.path,
            original := "sucess", new := "success", reason := issue.reason } ::
            st.changeLog } := by
    simp only [handleAcceptIssue, hpath, hsug, herr]
    rw [if_neg (by decide : ¬(("sucess" : String) = ""))]
    rw [show replaceFirst "Led the team to sucess" "sucess" "success" =
      "Led the team to success" from rfl]
  have hget2 : getPath (handleAcceptIssue st issue now).data (parsePath issue.path) =
      some (Json.str "Led the team to success") := by
    rw [hstep]
    exact getPath_setPath (Json.str "Led the team to success") (parsePath issue.path)
      st.data (Json.str "Led the team to sucess") hpath
  have hundo : handleUndoChange (handleAcceptIssue st issue now)
      { id := toString now, timestamp := now, path := issue.path,
        original := "sucess", new := "success", reason := issue.reason } =
      { data := setPath (handleAcceptIssue st issue now).data (parsePath issue.path)
          (Json.str "Led the team to sucess"),
        issues := (handleAcceptIssue st issue now).issues,
        changeLog := (handleAcceptIssue st issue now).changeLog.filter
          (fun item => item.id != toString now) } := by
    simp only [handleUndoChange, hget2, if_neg hsent]
    rw [show replaceFirst "Led the team to success" "success" "sucess" =
      "Led the team to sucess" from rfl]
  refine ⟨hget2, by rw [hstep], ?_, ?_⟩
  · rw [hundo]
    exact getPath_setPath (Json.str "Led the team to sucess") (parsePath issue.path)
      (handleAcceptIssue st issue now).data (Json.str "Led the team to success") hget2
  · rw [hundo, hstep]
    simp only [List.filter_cons, bne_self_eq_false, if_neg (by simp : ¬(false = true))]
    rw [List.filter_eq_self.mpr]
    intro e he
    exact bne_iff_ne.mpr (hfresh e he)

/-- Witness for C1 at a concrete one-field record. -/
theorem claim_C1_accept_undo_round_trip_witness :
    getPath (handleAcceptIssue
        { data := Json.obj [("summary", Json.arr [Json.str "Led the team to sucess"])],
          issues := [], changeLog := [] }
        { id := "g1", path := "summary.0", original := "Led the team to sucess",
          errorText := "sucess", suggestions := ["success", "a success", "successfully"],
          reason := "spelling" } 5).data (parsePath "summary.0") =
      some (Json.str "Led the team to success") ∧
    (handleAcceptIssue
        { data := Json.obj [("summary", Json.arr [Json.str "Led the team to sucess"])],
          issues := [], changeLog := [] }
        { id := "g1", path := "summary.0", original := "Led the team to sucess",
          errorText := "sucess", suggestions := ["success", "a success", "successfully"],
          reason := "spelling" } 5).changeLog =
      { id := toString 5, timestamp := 5, path := "summary.0",
        original := "sucess", new := "success", reason := "spelling" } :: [] ∧
    getPath (handleUndoChange (handleAcceptIssue
        { data := Json.obj [("summary", Json.arr [Json.str "Led the team to sucess"])],
          issues := [], changeLog := [] }
        { id := "g1", path := "summary.0", original := "Led the team to sucess",
          errorText := "sucess", suggestions := ["success", "a success", "successfully"],
          reason := "spelling" } 5)
        { id := toString 5, timestamp := 5, path := "summary.0",
          original := "sucess", new := "success", reason := "spelling" }).data
      (parsePath "summary.0") = some (Json.str "Led the team to sucess") ∧
    (handleUndoChange (handleAcceptIssue
        { data := Json.obj [("summary", Json.arr [Json.str "Led the team to sucess"])],
          issues := [], changeLog := [] }
        { id := "g1", path := "summary.0", original := "Led the team to sucess",
          errorText := "sucess", suggestions := ["success", "a success", "successfully"],
          reason := "spelling" } 5)
        { id := toString 5, timestamp := 5, path := "summary.0",
          original := "sucess", new := "success", reason := "spelling" }).changeLog =
      [] :=
  claim_C1_accept_undo_round_trip
    { data := Json.obj [("summary", Json.arr [Json.str "Led the team to sucess"])],
      issues := [], changeLog := [] }
    { id := "g1", path := "summary.0", original := "Led the team to sucess",
      errorText := "sucess", suggestions := ["success", "a success", "successfully"],
      reason := "spelling" }
    5 rfl rfl rfl rfl (by decide) (by intro e he; simp at he)

/-- Claim C2: with a pool of 2 credentials and the fixed 3-model priority
list, if every invocation fails with a rate-limit-class error then exactly 3
attempts are made in total and the single aggregated exhaustion error is
raised, whatever the starting rotation cursor. -/
theorem claim_C2_rotation_budget {T : Type} (op : String → String → CallResult T)
    (pool : List String) (startKey : Nat)
    (hpool : pool.length = 2)
    (hop : ∀ modelId apiKey, op modelId apiKey = CallResult.rateLimit) :
    withModelFallback op pool startKey = (FallbackOutcome.exhausted, 3) := by
  obtain ⟨k1, k2, rfl⟩ := List.length_eq_two.mp hpool
  simp [withModelFallback, FALLBACK_MODELS, fallbackOuter, fallbackInner, maxAttempts, hop]

/-- Witness for C2 with a concrete always-rate-limited operation. -/
theorem claim_C2_rotation_budget_witness :
    withModelFallback (fun _ _ => CallResult.rateLimit (T := Unit)) ["key1", "key2"] 0 =
      (FallbackOutcome.exhausted, 3) :=
  claim_C2_rotation_budget (fun _ _ => CallResult.rateLimit) ["key1", "key2"] 0 rfl
    (fun _ _ => rfl)

theorem dropWhile_dropWhile_self (p : Char → Bool) (l : List Char) :
    (l.dropWhile p).dropWhile p = l.dropWhile p := by
  induction l with
  | nil => rfl
  | cons a l ih =>
    by_cases h : p a
    · simp [List.dropWhile_cons, h, ih]
    · simp [List.dropWhile_cons, h]

theorem head_dropWhile_false {p : Char → Bool} {l : List Char} {c : Char} {r : List Char}
    (h : l.dropWhile p = c :: r) : p c = false := by
  have hm := List.head?_dropWhile_not p l
  rw [h] at hm
  simpa using hm

theorem isWs_isBulletOrWs {c : Char} (h : isWs c = true) : isBulletOrWs c = true := by
  simp [isBulletOrWs, h]

theorem dropWhile_ws_dropWhile_bullet (l : List Char) :
    (l.dropWhile isBulletOrWs).dropWhile isWs = l.dropWhile isBulletOrWs := by
  cases hd : l.dropWhile isBulletOrWs with
  | nil => rfl
  | cons c r =>
    have hc : isBulletOrWs c = false := head_dropWhile_false hd
    have hw : isWs c = false := by
      cases hws : isWs c
      · rfl
      · rw [isWs_isBulletOrWs hws] at hc
        exact absurd hc (by simp)
    simp [List.dropWhile_cons, hw]

theorem dropTrailingWs_prefix (l : List Char) : dropTrailingWs l <+: l := by
  have h1 : (l.reverse.dropWhile isWs) <:+ l.reverse := List.dropWhile_suffix isWs
  have h2 := List.reverse_prefix.mpr h1
  rw [List.reverse_reverse] at h2
  exact h2

theorem dropTrailingWs_dropTrailingWs (l : List Char) :
    dropTrailingWs (dropTrailingWs l) = dropTrailingWs l := by
  unfold dropTrailingWs
  rw [List.reverse_reverse, dropWhile_dropWhile_self]

/-- Claim C8: `cleanBulletPrefix` (the `cleanText` helper) is idempotent:
stripping the leading whitespace/bullet-glyph run and trimming a second time
changes nothing. -/
theorem claim_C8_cleanText_idempotent (text : String) :
    cleanText (cleanText text) = cleanText text := by
  by_cases h0 : text.data = []
  · have h1 : cleanText text = "" := by rw [cleanText, if_pos h0]
    rw [h1]
    decide
  · have hCT : cleanText text = String.mk (trimChars (text.data.dropWhile isBulletOrWs)) := by
      rw [cleanText, if_neg h0]
    have hr : trimChars (text.data.dropWhile isBulletOrWs) =
        dropTrailingWs (text.data.dropWhile isBulletOrWs) := by
      rw [trimChars, dropWhile_ws_dropWhile_bullet]
    rw [hCT, hr]
    by_cases hr0 : dropTrailingWs (text.data.dropWhile isBulletOrWs) = []
    · rw [hr0]
      decide
    · obtain ⟨c, r2, hcons⟩ : ∃ c r2,
          dropTrailingWs (text.data.dropWhile isBulletOrWs) = c :: r2 := by
        cases hx : dropTrailingWs (text.data.dropWhile isBulletOrWs) with
        | nil => exact absurd hx hr0
        | cons c r2 => exact ⟨c, r2, rfl⟩
      obtain ⟨t, ht⟩ := dropTrailingWs_prefix (text.data.dropWhile isBulletOrWs)
      rw [hcons] at ht
      have hhead : text.data.dropWhile isBulletOrWs = c :: (r2 ++ t) := ht.symm
      have hcb : isBulletOrWs c = false := head_dropWhile_false hhead
      have hcw : isWs c = false := by
        cases hws : isWs c
        · rfl
        · rw [isWs_isBulletOrWs hws] at hcb
          exact absurd hcb (by simp)
      rw [hcons]
      rw [cleanText, if_neg (by simp : ¬((String.mk (c :: r2)).data = []))]
      rw [show (String.mk (c :: r2)).data = c :: r2 from rfl]
      rw [List.dropWhile_cons_of_neg (by simp [hcb])]
      rw [trimChars, List.dropWhile_cons_of_neg (by simp [hcw])]
      rw [← hcons, dropTrailingWs_dropTrailingWs]

theorem afterDashSep_length (l r : List Char) (h : afterDashSep l = some r) :
    r.length < l.length := by
  unfold afterDashSep at h
  split at h
  · exact absurd h (by simp)
  next c rest heq =>
    split at h
    · injection h with h
      subst h
      have h1 : (rest.dropWhile isWs).length ≤ rest.length :=
        (List.dropWhile_sublist isWs).length_le
      have h2 : (l.dropWhile isWs).length ≤ l.length :=
        (List.dropWhile_sublist isWs).length_le
      rw [heq] at h2
      simp only [List.length_cons] at h2
      omega
    · exact absurd h (by simp)

theorem isWs_of_isDash_false {c : Char} (h : isDash c = true) : isWs c = false := by
  simp only [isDash, Bool.or_eq_true, beq_iff_eq] at h
  rcases h with (h | h) | h <;> subst h <;> decide

theorem afterDashSep_cons_of_isDash (c : Char) (rest : List Char) (h : isDash c = true) :
    afterDashSep (c :: rest) = some (rest.dropWhile isWs) := by
  unfold afterDashSep
  rw [List.dropWhile_cons_of_neg (by simp [isWs_of_isDash_false h])]
  simp [h]

theorem replaceDashFuel_zero (l : List Char) : replaceDashFuel 0 l = l := rfl

theorem replaceDashFuel_succ_nil (n : Nat) : replaceDashFuel (n + 1) [] = [] := rfl

theorem replaceDashFuel_succ_cons (n : Nat) (c : Char) (rest : List Char) :
    replaceDashFuel (n + 1) (c :: rest) =
      match afterDashSep (c :: rest) with
      | some rest2 => ' ' :: '-' :: ' ' :: replaceDashFuel n rest2
      | none => c :: replaceDashFuel n rest := rfl

/-- Every character emitted by the dash-replacement pass is either a copied
non-dash character or part of an inserted `" - "`, so no en-dash or em-dash
survives. -/
theorem replaceDashFuel_no_long_dash (n : Nat) :
    ∀ l : List Char, l.length ≤ n → ∀ c ∈ replaceDashFuel n l, c ≠ '–' ∧ c ≠ '—' := by
  induction n with
  | zero =>
    intro l hl c hc
    have hnil : l = [] := List.length_eq_zero.mp (Nat.le_zero.mp hl)
    subst hnil
    rw [replaceDashFuel_zero] at hc
    simp at hc
  | succ n ih =>
    intro l hl c hc
    cases l with
    | nil =>
      rw [replaceDashFuel_succ_nil] at hc
      simp at hc
    | cons c0 rest =>
      rw [replaceDashFuel_succ_cons] at hc
      cases hads : afterDashSep (c0 :: rest) with
      | some rest2 =>
        simp only [hads] at hc
        simp only [List.mem_cons] at hc
        have hlen : rest2.length ≤ n := by
          have h1 := afterDashSep_length (c0 :: rest) rest2 hads
          simp only [List.length_cons] at h1 hl
          omega
        rcases hc with rfl | rfl | rfl | hc
        · exact ⟨by decide, by decide⟩
        · exact ⟨by decide, by decide⟩
        · exact ⟨by decide, by decide⟩
        · exact ih rest2 hlen c hc
      | none =>
        simp only [hads] at hc
        simp only [List.mem_cons] at hc
        rcases hc with rfl | hc
        · refine ⟨?_, ?_⟩ <;> intro he
          · rw [he, afterDashSep_cons_of_isDash _ _ (by decide)] at hads
            exact absurd hads (by simp)
          · rw [he, afterDashSep_cons_of_isDash _ _ (by decide)] at hads
            exact absurd hads (by simp)
        · have hlen : rest.length ≤ n := by
            simp only [List.length_cons] at hl
            omega
          exact ih rest hlen c hc

theorem mem_of_mem_trimChars (c : Char) (l : List Char) (h : c ∈ trimChars l) : c ∈ l := by
  unfold trimChars dropTrailingWs at h
  rw [List.mem_reverse] at h
  have h2 := List.dropWhile_subset isWs h
  rw [List.mem_reverse] at h2
  exact List.dropWhile_subset isWs h2

/-- Claim C6, amended: for every date string, the output of
`normalizeDates` contains no en-dash and no em-dash (every dash variant is
collapsed into an inserted `" - "` separator); the word `to` surrounded by
whitespace is replaced, as witnessed on a concrete range.  (The original
claim's "no residual to" part fails when the whitespace around a `to` was
already consumed by an adjacent separator replacement - see the
counterexample theorem.) -/
theorem claim_C6_normalizeDates_amended (s : String) :
    (normalizeDates s).data.all (fun c => !(c == '–') && !(c == '—')) = true ∧
    normalizeDates "Jan 2020 to Mar 2021" = "Jan 2020 - Mar 2021" ∧
    normalizeDates "Jan 2020–Mar 2021" = "Jan 2020 - Mar 2021" := by
  refine ⟨?_, by decide, by decide⟩
  rw [List.all_eq_true]
  intro c hc
  by_cases h0 : s.data = []
  · rw [normalizeDates, if_pos h0] at hc
    rw [show ("" : String).data = [] from rfl] at hc
    simp at hc
  · rw [normalizeDates, if_neg h0] at hc
    have hc2 : c ∈ trimChars (replaceDashFuel (replaceToFuel s.data.length s.data).length
        (replaceToFuel s.data.length s.data)) := hc
    have hc3 := mem_of_mem_trimChars _ _ hc2
    have hmem := replaceDashFuel_no_long_dash _ _ (Nat.le_refl _) _ hc3
    simp only [Bool.and_eq_true, Bool.not_eq_true', beq_eq_false_iff_ne, ne_eq]
    exact ⟨hmem.1, hmem.2⟩

/-- Counterexample to claim C6 as stated: the input contains a dash
variant, yet the output retains a whitespace-surrounded `to`, because the
hyphen match of `/\s*[–—\-]\s*/g` owns the whitespace that the
`/\s+to\s+/gi` pass would have needed. -/
theorem claim_C6_counterexample :
    occursIn "-" "Jan 2020-to Mar 2021" = true ∧
    normalizeDates "Jan 2020-to Mar 2021" = "Jan 2020 - to Mar 2021" ∧
    occursIn " to " (normalizeDates "Jan 2020-to Mar 2021") = true := by
  refine ⟨by decide, by decide, by decide⟩

/-- Claim C5: the long-line splitting used by the preview, the DOCX export
and the PDF export is the same function at all three call sites; a line that
is not both longer than 100 characters and period-containing passes through
unchanged; and every fragment produced for a split line ends with a
period. -/
theorem claim_C5_processDescription_shared :
    (∀ items : List String,
      processDescriptionDocx items = processDescriptionPdf items ∧
      processDescriptionDocx items = processDescriptionPreview items) ∧
    (∀ item : String, ¬(100 < item.data.length ∧ item.data.contains '.' = true) →
      processDescriptionDocx [item] = [item]) ∧
    (∀ item : String, 100 < item.data.length → item.data.contains '.' = true →
      ∀ s ∈ processDescriptionDocx [item], s.data.getLast? = some '.') := by
  have hflat : ∀ item : String, processDescriptionDocx [item] = processItem item := by
    intro item
    simp [processDescriptionDocx]
  refine ⟨fun items => ⟨rfl, rfl⟩, ?_, ?_⟩
  · intro item h
    have hcond : (decide (100 < item.data.length) && item.data.contains '.') = false := by
      cases hlen : decide (100 < item.data.length)
      · simp
      · cases hdot : item.data.contains '.'
        · simp
        · exact absurd ⟨of_decide_eq_true hlen, hdot⟩ h
    rw [hflat item, processItem, hcond]
    simp
  · intro item hlen hdot s hs
    have hcond : (decide (100 < item.data.length) && item.data.contains '.') = true := by
      rw [decide_eq_true hlen, hdot]
      rfl
    rw [hflat item, processItem, hcond] at hs
    rw [if_pos rfl] at hs
    simp only [List.mem_map] at hs
    obtain ⟨t, ht, rfl⟩ := hs
    show (repunctuate (trimChars t)).getLast? = some '.'
    unfold repunctuate
    by_cases hl : (trimChars t).getLast? = some '.'
    · rw [if_pos hl]
      exact hl
    · rw [if_neg hl]
      exact List.getLast?_concat _

/-- Witness for C5: a short line passes through unchanged, and every
fragment of a concrete 137-character two-sentence line ends with a
period. -/
theorem claim_C5_processDescription_shared_witness :
    processDescriptionDocx ["Improved performance"] = ["Improved performance"] ∧
    (processDescriptionDocx
      ["Led the cross functional team across four continents and seven time zones for three years. Shipped the flagship product to every customer"]).all
      (fun s => s.data.getLast? == some '.') = true := by
  constructor
  · exact claim_C5_processDescription_shared.2.1 "Improved performance" (by decide)
  · rw [List.all_eq_true]
    intro s hs
    have h := claim_C5_processDescription_shared.2.2
      "Led the cross functional team across four continents and seven time zones for three years. Shipped the flagship product to every customer"
      (by decide) (by decide) s hs
    simp [h]

theorem evenIdx_oddIdx_pairRows_length (n : Nat) :
    ∀ l : List String, l.length ≤ n →
      (evenIdx l).length = (l.length + 1) / 2 ∧
      (oddIdx l).length = l.length / 2 ∧
      (pairRows l).length = (l.length + 1) / 2 := by
  induction n with
  | zero =>
    intro l hl
    have hnil : l = [] := List.length_eq_zero.mp (Nat.le_zero.mp hl)
    subst hnil
    simp [evenIdx, oddIdx, pairRows]
  | succ n ih =>
    intro l hl
    rcases l with _ | ⟨a, _ | ⟨b, rest⟩⟩
    · simp [evenIdx, oddIdx, pairRows]
    · simp [evenIdx, oddIdx, pairRows]
    · have hr : rest.length ≤ n := by
        simp only [List.length_cons] at hl
        omega
      obtain ⟨h1, h2, h3⟩ := ih rest hr
      refine ⟨?_, ?_, ?_⟩
      · simp only [evenIdx, List.length_cons, h1]
        omega
      · simp only [oddIdx, List.length_cons, h2]
        omega
      · simp only [pairRows, List.length_cons, h3]
        omega

/-- Claim C7: for a custom section whose title contains SKILLS,
COMPETENCIES or LANGUAGES, six items of at most 60 characters render in two
columns of three in the preview (CSS `columnCount: 2`, filled 3+3 by
balanced columns), the DOCX export (a 3-row two-cell grid) and the PDF
export (left/right columns of 3); any item longer than 60 characters forces
a single column in all three renderers, regardless of item count. -/
theorem claim_C7_custom_section_grid (title : String) (items : List String)
    (hgrid : isGridCandidateTitle title = true) :
    ((items.length = 6 ∧ hasLongItems items = false) →
      previewCustomColumns title items = 2 ∧
      docxCustomLayout title items = DocxSectionLayout.grid (pairRows items) ∧
      (pairRows items).length = 3 ∧
      pdfCustomLayout title items = PdfSectionLayout.twoCol (evenIdx items) (oddIdx items) ∧
      (evenIdx items).length = 3 ∧ (oddIdx items).length = 3) ∧
    (hasLongItems items = true →
      previewCustomColumns title items = 1 ∧
      docxCustomLayout title items = DocxSectionLayout.flat items ∧
      pdfCustomLayout title items = PdfSectionLayout.oneCol items) := by
  constructor
  · rintro ⟨h6, hlong⟩
    obtain ⟨he, ho, hp⟩ := evenIdx_oddIdx_pairRows_length items.length items (Nat.le_refl _)
    refine ⟨?_, ?_, ?_, ?_, ?_, ?_⟩
    · simp [previewCustomColumns, hgrid, hlong, h6]
    · simp [docxCustomLayout, hgrid, hlong]
    · rw [hp, h6]
    · simp [pdfCustomLayout, hgrid, hlong]
    · rw [he, h6]
    · rw [ho, h6]
  · intro hlong
    refine ⟨?_, ?_, ?_⟩
    · simp [previewCustomColumns, hlong]
    · simp [docxCustomLayout, hlong]
    · simp [pdfCustomLayout, hlong]

/-- Witness for C7: a six-item skills section and a section with one over-60
character item. -/
theorem claim_C7_custom_section_grid_witness :
    (previewCustomColumns "SKILLS" ["Java", "Python", "Go", "Rust", "C", "SQL"] = 2 ∧
      docxCustomLayout "SKILLS" ["Java", "Python", "Go", "Rust", "C", "SQL"] =
        DocxSectionLayout.grid (pairRows ["Java", "Python", "Go", "Rust", "C", "SQL"]) ∧
      (pairRows ["Java", "Python", "Go", "Rust", "C", "SQL"]).length = 3 ∧
      pdfCustomLayout "SKILLS" ["Java", "Python", "Go", "Rust", "C", "SQL"] =
        PdfSectionLayout.twoCol (evenIdx ["Java", "Python", "Go", "Rust", "C", "SQL"])
          (oddIdx ["Java", "Python", "Go", "Rust", "C", "SQL"]) ∧
      (evenIdx ["Java", "Python", "Go", "Rust", "C", "SQL"]).length = 3 ∧
      (oddIdx ["Java", "Python", "Go", "Rust", "C", "SQL"]).length = 3) ∧
    (previewCustomColumns "SKILLS"
        ["this single item is certainly longer than sixty characters overall"] = 1 ∧
      docxCustomLayout "SKILLS"
          ["this single item is certainly longer than sixty characters overall"] =
        DocxSectionLayout.flat
          ["this single item is certainly longer than sixty characters overall"] ∧
      pdfCustomLayout "SKILLS"
          ["this single item is certainly longer than sixty characters overall"] =
        PdfSectionLayout.oneCol
          ["this single item is certainly longer than sixty characters overall"]) :=
  ⟨(claim_C7_custom_section_grid "SKILLS" ["Java", "Python", "Go", "Rust", "C", "SQL"]
      (by decide)).1 ⟨rfl, by decide⟩,
   (claim_C7_custom_section_grid "SKILLS"
      ["this single item is certainly longer than sixty characters overall"]
      (by decide)).2 (by decide)⟩

/-- Counterexample to claim C4 as stated: for the custom-section line
`"Key: Value"` the DOCX export emits a single unbolded run (the colon is
within the first 20 characters, so the line becomes one plain paragraph);
no run of the DOCX rendering is bold, so the key is not bolded there. -/
theorem claim_C4_counterexample :
    ("Key: Value" : String).data.contains ':' = true ∧
    docxCustomItemRuns "Key: Value" = [("Key: Value", false)] ∧
    (docxCustomItemRuns "Key: Value").all (fun r => !r.2) = true := by
  refine ⟨by decide, by decide, by decide⟩

/-- Claim C4, amended: for every custom-section item containing a colon,
the preview and the PDF export (in its single-column branch) render the key
before the first colon as a bold run followed by the unbolded value, but the
DOCX export renders the whole line unbolded (a plain paragraph when the
colon is within the first 20 characters, otherwise a regular bullet). -/
theorem claim_C4_key_value_bold_amended (item : String)
    (hcolon : item.data.contains ':' = true) :
    previewCustomItemRuns item =
      [(keyBeforeColon item ++ ":", true), (valueAfterColon item, false)] ∧
    pdfCustomItemRuns item =
      [(keyBeforeColon item ++ ":", true), (valueAfterColon item, false)] ∧
    (docxCustomItemRuns item).all (fun r => !r.2) = true := by
  refine ⟨?_, ?_, ?_⟩
  · rw [previewCustomItemRuns, hcolon, if_pos rfl]
  · rw [pdfCustomItemRuns, hcolon, if_pos rfl]
  · rw [docxCustomItemRuns]
    split
    · simp
    · simp

/-- Witness for C4 (amended) at the concrete line `"Key: Value"`. -/
theorem claim_C4_key_value_bold_amended_witness :
    previewCustomItemRuns "Key: Value" = [("Key:", true), (" Value", false)] ∧
    pdfCustomItemRuns "Key: Value" = [("Key:", true), (" Value", false)] ∧
    (docxCustomItemRuns "Key: Value").all (fun r => !r.2) = true := by
  have h := claim_C4_key_value_bold_amended "Key: Value" (by decide)
  refine ⟨?_, ?_, h.2.2⟩
  · rw [h.1]
    decide
  · rw [h.2.1]
    decide

/-- Claim C10: under Modern Executive the DOCX and PDF exports expand
3-letter months in education dates via `formatModernDate`, while the
preview renders education dates verbatim; on "Jan 2020" the preview shows
"Jan 2020" but both exports show "January 2020", so the three renderers
disagree. -/
theorem claim_C10_education_dates_divergence :
    (∀ dates : String, previewEducationDates dates = dates) ∧
    (∀ dates : String, docxEducationDates true dates = formatModernDate dates) ∧
    (∀ dates : String, pdfEducationDates true dates = formatModernDate dates) ∧
    docxEducationDates true "Jan 2020" = "January 2020" ∧
    pdfEducationDates true "Jan 2020" = "January 2020" ∧
    previewEducationDates "Jan 2020" ≠ docxEducationDates true "Jan 2020" := by
  refine ⟨fun _ => rfl, fun _ => rfl, fun _ => rfl, by decide, by decide, by decide⟩


end ResumeSpec
